import Mathlib

/-!
# LexPrep — verification of the placeholder / schema / rendering pipeline

Shallow embedding of the LexPrep repository's core in Lean 4, following the
Python sources file by file:

* `src/app.py`, `src/app_b.py` — `_slug`, `collect_ctx`, the manifest
  inference in the "Create Template" page, and the template-delete handlers;
* `src/utils.py`, `src/utils_b.py` — `extract_placeholders`;
* `src/renderer.py` — `render_docx_rtf` with its Pandoc fast path,
  sanity check and LibreOffice fallback;
* `src/db.py` — the shapes of the `templates` / `cases` tables and the
  operations the handlers perform on them.

Strings are Lean `String`s, Python dicts keyed by strings become association
lists in insertion order, and the Streamlit session state becomes an explicit
pair of lookup functions (values and repetition counts).
-/

namespace LexPrep

/-! ## `_slug` (src/app.py lines 191-193, src/app_b.py lines 154-156)

Python:
`re.sub(r"[^A-Za-z0-9]+", "-", text).strip("-").lower()`
-/

/-- The character class `[A-Za-z0-9]` of the `re.sub` pattern in `_slug`,
given literally as the finite set of characters it contains. -/
def alnumChars : List Char :=
  "ABCDEFGHIJKLMNOPQRSTUVWXYZabcdefghijklmnopqrstuvwxyz0123456789".data

/-- `c` matches the regex class `[A-Za-z0-9]`. -/
def isAsciiAlnum (c : Char) : Bool := alnumChars.contains c

/-- Scan for `re.sub(r"[^A-Za-z0-9]+", "-", text)`; the flag records
whether we are inside a non-alphanumeric run whose single replacement
hyphen has already been emitted. -/
def subNonAlnumAux : Bool → List Char → List Char
  | _, [] => []
  | inRun, c :: cs =>
    if isAsciiAlnum c then c :: subNonAlnumAux false cs
    else if inRun then subNonAlnumAux true cs
    else '-' :: subNonAlnumAux true cs

/-- `re.sub(r"[^A-Za-z0-9]+", "-", text)`: every maximal run of characters
outside `[A-Za-z0-9]` is replaced by a single hyphen. -/
def subNonAlnum (l : List Char) : List Char := subNonAlnumAux false l

/-- Python `str.strip("-")`: remove hyphens from both ends of the string. -/
def stripDashes (l : List Char) : List Char :=
  (((l.dropWhile (· == '-')).reverse.dropWhile (· == '-'))).reverse

/-- Python `str.lower()`, restricted to the characters that can still be
present after the `re.sub` step of `_slug` (ASCII alphanumerics and the
hyphen): ASCII uppercase letters map to their lowercase counterparts and
every other such character is unchanged. -/
def pyLowerChar (c : Char) : Char :=
  match c with
  | 'A' => 'a' | 'B' => 'b' | 'C' => 'c' | 'D' => 'd' | 'E' => 'e'
  | 'F' => 'f' | 'G' => 'g' | 'H' => 'h' | 'I' => 'i' | 'J' => 'j'
  | 'K' => 'k' | 'L' => 'l' | 'M' => 'm' | 'N' => 'n' | 'O' => 'o'
  | 'P' => 'p' | 'Q' => 'q' | 'R' => 'r' | 'S' => 's' | 'T' => 't'
  | 'U' => 'u' | 'V' => 'v' | 'W' => 'w' | 'X' => 'x' | 'Y' => 'y'
  | 'Z' => 'z'
  | c => c

/-- `_slug` from src/app.py / src/app_b.py:
`re.sub(r"[^A-Za-z0-9]+", "-", text).strip("-").lower()`. -/
def pySlug (s : String) : String :=
  String.mk ((stripDashes (subNonAlnum s.data)).map pyLowerChar)

/-- A filesystem-safe slug character: lowercase ASCII letter, digit, or
hyphen. -/
def isSlugChar (c : Char) : Bool :=
  ("abcdefghijklmnopqrstuvwxyz0123456789-".data).contains c

lemma mem_subNonAlnumAux {c : Char} :
    ∀ {l : List Char} {flag : Bool}, c ∈ subNonAlnumAux flag l →
      isAsciiAlnum c = true ∨ c = '-' := by
  intro l
  induction l with
  | nil => intro flag h; rw [subNonAlnumAux] at h; simp at h
  | cons d cs ih =>
    intro flag h
    rw [subNonAlnumAux] at h
    by_cases hd : isAsciiAlnum d
    · rw [if_pos hd] at h
      rcases List.mem_cons.mp h with rfl | h'
      · exact Or.inl hd
      · exact ih h'
    · rw [if_neg hd] at h
      by_cases hflag : flag = true
      · rw [if_pos hflag] at h
        exact ih h
      · rw [if_neg hflag] at h
        rcases List.mem_cons.mp h with rfl | h'
        · exact Or.inr rfl
        · exact ih h'

lemma mem_subNonAlnum {c : Char} {l : List Char}
    (h : c ∈ subNonAlnum l) : isAsciiAlnum c = true ∨ c = '-' :=
  mem_subNonAlnumAux h

lemma stripDashes_subset {c : Char} {l : List Char}
    (h : c ∈ stripDashes l) : c ∈ l := by
  unfold stripDashes at h
  rw [List.mem_reverse] at h
  have h1 := (l.dropWhile (· == '-')).reverse.dropWhile_sublist (p := (· == '-'))
  have h2 := h1.mem h
  rw [List.mem_reverse] at h2
  exact (l.dropWhile_sublist (p := (· == '-'))).mem h2

lemma pyLowerChar_slugChar {c : Char}
    (h : isAsciiAlnum c = true ∨ c = '-') : isSlugChar (pyLowerChar c) = true := by
  have hall : (alnumChars ++ ['-']).all (fun d => isSlugChar (pyLowerChar d)) = true := by
    decide
  rw [List.all_eq_true] at hall
  apply hall
  rcases h with h | rfl
  · exact List.mem_append_left _ (by simpa [isAsciiAlnum, List.contains] using h)
  · exact List.mem_append_right _ (by simp)

lemma head?_dropWhile_not {p : Char → Bool} :
    ∀ {l : List Char} {a : Char}, (l.dropWhile p).head? = some a → p a = false := by
  intro l
  induction l with
  | nil => intro a h; simp [List.dropWhile] at h
  | cons c cs ih =>
    intro a h
    rw [List.dropWhile_cons] at h
    by_cases hc : p c = true
    · rw [if_pos hc] at h; exact ih h
    · rw [if_neg hc] at h
      simp at h
      subst h
      simpa using hc

lemma getLast?_dropWhile_not {p : Char → Bool} {l : List Char} {a : Char}
    (h : (l.dropWhile p).getLast? = some a) : l.getLast? = some a := by
  induction l with
  | nil => simp [List.dropWhile] at h
  | cons c cs ih =>
    rw [List.dropWhile_cons] at h
    by_cases hc : p c = true
    · rw [if_pos hc] at h
      have hne : cs.dropWhile p ≠ [] := by
        intro hnil; rw [hnil] at h; simp at h
      have hcs : cs ≠ [] := by
        intro hnil; subst hnil; simp [List.dropWhile] at hne
      rcases cs with _ | ⟨x, xs⟩
      · simp at hcs
      · rw [List.getLast?_cons_cons]; exact ih h
    · rw [if_neg hc] at h
      exact h

/-- **C10** (Implicit slug invariant): for every input string, `_slug`
returns a string consisting only of lowercase ASCII letters, digits, and
hyphens, with no leading or trailing hyphen. -/
theorem slug_filesystem_safe (s : String) :
    (∀ c ∈ (pySlug s).data, isSlugChar c = true)
    ∧ (pySlug s).data.head? ≠ some '-'
    ∧ (pySlug s).data.getLast? ≠ some '-' := by
  refine ⟨?_, ?_, ?_⟩
  · intro c hc
    simp only [pySlug, List.mem_map] at hc
    obtain ⟨d, hd, rfl⟩ := hc
    exact pyLowerChar_slugChar (mem_subNonAlnum (stripDashes_subset hd))
  · -- the head of the stripped list is not a hyphen
    intro h
    simp only [pySlug, List.head?_map] at h
    obtain ⟨d, hd, hld⟩ := Option.map_eq_some'.mp h
    -- pyLowerChar d = '-' forces d = '-' on the reachable character set
    have hmem : d ∈ stripDashes (subNonAlnum s.data) := by
      rcases hhd : (stripDashes (subNonAlnum s.data)) with _ | ⟨x, xs⟩
      · rw [hhd] at hd; simp at hd
      · rw [hhd] at hd; simp at hd; subst hd; simp [hhd]
    have hset := mem_subNonAlnum (stripDashes_subset hmem)
    have hdd : d = '-' := by
      rcases hset with hal | rfl
      · exfalso
        have : isSlugChar (pyLowerChar d) = true := pyLowerChar_slugChar (Or.inl hal)
        rw [hld] at this
        -- but '-' combined with d alnum: pyLowerChar of an alnum char is never '-'
        have hno : (alnumChars.all (fun e => ¬ (pyLowerChar e = '-'))) = true := by decide
        rw [List.all_eq_true] at hno
        have := hno d (by simpa [isAsciiAlnum, List.contains] using hal)
        simp at this
        exact this hld
      · rfl
    subst hdd
    -- but stripDashes's head is never '-'
    unfold stripDashes at hd
    rw [List.head?_reverse] at hd
    have := getLast?_dropWhile_not hd
    rw [List.getLast?_reverse] at this
    have := head?_dropWhile_not this
    simp at this
  · intro h
    simp only [pySlug, List.getLast?_map] at h
    obtain ⟨d, hd, hld⟩ := Option.map_eq_some'.mp h
    have hmem : d ∈ stripDashes (subNonAlnum s.data) :=
      List.mem_of_mem_getLast? hd
    have hset := mem_subNonAlnum (stripDashes_subset hmem)
    have hdd : d = '-' := by
      rcases hset with hal | rfl
      · exfalso
        have hno : (alnumChars.all (fun e => ¬ (pyLowerChar e = '-'))) = true := by decide
        rw [List.all_eq_true] at hno
        have := hno d (by simpa [isAsciiAlnum, List.contains] using hal)
        simp at this
        exact this hld
      · rfl
    subst hdd
    unfold stripDashes at hd
    rw [List.getLast?_reverse] at hd
    have := head?_dropWhile_not hd
    simp at this

/-- Witness for C10 at a concrete string:
`pySlug "Hello_World!" = "hello-world"`, whose characters the theorem
certifies. -/
theorem slug_filesystem_safe_witness :
    pySlug "Hello_World!" = "hello-world"
    ∧ 'h' ∈ (pySlug "Hello_World!").data
    ∧ isSlugChar 'h' = true :=
  ⟨by decide, by decide,
    (slug_filesystem_safe "Hello_World!").1 'h' (by decide)⟩

/-! ## `render_docx_rtf` (src/renderer.py lines 61-95)

The function fills the DOCX template (`docxtpl`), writes
`outputs/<stem>.docx`, then converts it to `outputs/<stem>.rtf`:

* try-block: `_convert_with_pandoc` (raises `FileNotFoundError` when
  `pandoc` is not on the PATH, otherwise `pypandoc.convert_file` either
  writes the RTF or raises), then a sanity check
  `if _plain_text_len(rtf_out) < 100: rtf_out.unlink(); raise RuntimeError`;
* except-block: `logging.warning(...)`, then either
  `_convert_with_soffice` (when `HAVE_SOFFICE`) or re-raise.

Two facts about the source text matter and are modelled exactly:

* `renderer.py` never imports `logging`, so the first statement of the
  except-block raises `NameError: name 'logging' is not defined` and the
  rest of the handler (the LibreOffice fallback) is unreachable;
* `_plain_text_len` is called but not defined in any file under `src/`.
  Modelled from the spec: `_plain_text_len` measures "the extractable
  plain-text length of the produced output"; it enters the model as the
  environment field `pandocTextLen` below.

The filesystem and the external engines are abstracted into an environment
record describing one generation attempt. -/

/-- One generation attempt's environment: what the template fill, the two
conversion engines and the text-length measurement would do. -/
structure ConvEnv where
  /-- `DocxTemplate(...).render(context)` and `tpl.save(docx_out)` succeed. -/
  fillOk : Bool
  /-- `shutil.which("pandoc")` is not `None`. -/
  pandocOnPath : Bool
  /-- `pypandoc.convert_file` returns normally (and writes the RTF). -/
  pandocOk : Bool
  /-- `_plain_text_len` of the Pandoc-produced RTF (spec-modelled, see above). -/
  pandocTextLen : Nat
  /-- `shutil.which("soffice")` is not `None` (`HAVE_SOFFICE`). -/
  sofficeOnPath : Bool
  /-- the `soffice --headless --convert-to rtf` subprocess exits with 0
  (and writes the RTF into the output directory). -/
  sofficeOk : Bool
  /-- extractable plain-text length of the soffice-produced RTF. -/
  sofficeTextLen : Nat

/-- The exceptions `render_docx_rtf` can raise. -/
inductive RenderErr where
  /-- `docxtpl` failed to parse or render the template. -/
  | renderError
  /-- `FileNotFoundError("pandoc not on PATH")` from `_convert_with_pandoc`. -/
  | pandocNotFound
  /-- `pypandoc.convert_file` raised. -/
  | pandocError
  /-- `RuntimeError("Pandoc produced incomplete RTF")` from the sanity check. -/
  | pandocIncomplete
  /-- `NameError: name 'logging' is not defined` (missing `import logging`). -/
  | nameErrorLogging
  /-- `subprocess.CalledProcessError` from the soffice subprocess. -/
  | sofficeFailed
  /-- `FileNotFoundError("LibreOffice soffice not on PATH")`. -/
  | sofficeNotFound
deriving DecidableEq, Repr

/-- What one call to `render_docx_rtf` leaves behind: its return value or
exception, and whether `outputs/<stem>.docx` / `outputs/<stem>.rtf` exist on
disk afterwards. -/
structure RenderOutcome where
  result : Except RenderErr (String × String)
  docxOnDisk : Bool
  rtfOnDisk : Bool
deriving Repr

/-- Outcome of the try-block of `render_docx_rtf` (Pandoc fast path plus
sanity check), given that the DOCX fill already succeeded. -/
def pandocTry (env : ConvEnv) (stem : String) : RenderOutcome :=
  if ¬ env.pandocOnPath then
    ⟨.error .pandocNotFound, true, false⟩
  else if ¬ env.pandocOk then
    ⟨.error .pandocError, true, false⟩
  else if env.pandocTextLen < 100 then
    -- `rtf_out.unlink(missing_ok=True)` then `raise RuntimeError(...)`
    ⟨.error .pandocIncomplete, true, false⟩
  else
    ⟨.ok ("outputs/" ++ stem ++ ".docx", "outputs/" ++ stem ++ ".rtf"),
      true, true⟩

/-- `render_docx_rtf` exactly as written in src/renderer.py: when the
try-block raises, the except-block's first statement `logging.warning(...)`
itself raises `NameError` (there is no `import logging` in the module), so
the function propagates that `NameError` and the fallback code below it
never runs. -/
def render_docx_rtf (env : ConvEnv) (stem : String) : RenderOutcome :=
  if ¬ env.fillOk then ⟨.error .renderError, false, false⟩
  else
    match (pandocTry env stem).result with
    | .ok p =>
      ⟨.ok p, (pandocTry env stem).docxOnDisk, (pandocTry env stem).rtfOnDisk⟩
    | .error _ =>
      ⟨.error .nameErrorLogging, (pandocTry env stem).docxOnDisk,
        (pandocTry env stem).rtfOnDisk⟩

/-- NOT the behaviour of src/renderer.py — a hypothetical variant, used
only to exhibit what the module docstring's documented fallback would do
(see the C3 bug demonstration below): with the missing `import logging`
slip repaired (`logging.warning` / `logging.info` / `logging.error` as
no-ops), the except-block runs `_convert_with_soffice` when
`HAVE_SOFFICE`, else re-raises the original error. The shipped code is
`render_docx_rtf` above, whose except-block raises `NameError` instead. -/
def render_docx_rtf_intended (env : ConvEnv) (stem : String) : RenderOutcome :=
  if ¬ env.fillOk then ⟨.error .renderError, false, false⟩
  else
    match (pandocTry env stem).result with
    | .ok p =>
      ⟨.ok p, (pandocTry env stem).docxOnDisk, (pandocTry env stem).rtfOnDisk⟩
    | .error e =>
      if env.sofficeOnPath then
        -- `_convert_with_soffice` re-checks `shutil.which("soffice")`,
        -- which succeeds here, then runs the subprocess with `check=True`
        if env.sofficeOk then
          ⟨.ok ("outputs/" ++ stem ++ ".docx", "outputs/" ++ stem ++ ".rtf"),
            true, true⟩
        else ⟨.error .sofficeFailed, true, (pandocTry env stem).rtfOnDisk⟩
      else ⟨.error e, true, (pandocTry env stem).rtfOnDisk⟩

/-- When the try-block returns normally, both artifacts are on disk. -/
lemma pandocTry_ok_disk (env : ConvEnv) (stem : String) {p}
    (hp : (pandocTry env stem).result = .ok p) :
    pandocTry env stem = ⟨.ok p, true, true⟩ := by
  unfold pandocTry at hp ⊢
  by_cases h1 : env.pandocOnPath <;> by_cases h2 : env.pandocOk <;>
    by_cases h3 : env.pandocTextLen < 100 <;> simp_all

/-- When `render_docx_rtf` returns normally, both artifacts are on disk. -/
lemma render_docx_rtf_ok_disk (env : ConvEnv) (stem : String) {p}
    (hp : (render_docx_rtf env stem).result = .ok p) :
    render_docx_rtf env stem = ⟨.ok p, true, true⟩ := by
  unfold render_docx_rtf at hp ⊢
  by_cases hf : env.fillOk
  · rw [if_neg (by simp [hf])] at hp ⊢
    rcases hres : (pandocTry env stem).result with e | q
    · rw [hres] at hp
      simp at hp
    · rw [hres] at hp
      have h2 := pandocTry_ok_disk env stem hres
      simp only [h2] at hp ⊢
      simp at hp ⊢
      simp_all
  · rw [if_pos hf] at hp
    simp at hp

/-! ### The tab-2 / "Create Case" generate handler
(src/app.py lines 487-511; the same render-then-insert sequence appears in
src/app_b.py lines 303-313)

`docx_path, rtf_path = render_docx_rtf(...)` followed by
`case_id = insert_case(tmpl_row["id"], ctx, docx_path, rtf_path, ...)`.
If `render_docx_rtf` raises, the exception propagates out of the handler
and `insert_case` is never reached. -/

/-- A persisted row of the `cases` table (src/db.py), with the fields the
claims are about. -/
structure CaseRow where
  id : Nat
  template_id : Nat
  doc_name : Option String
  docx_path : String
  rtf_path : String
  created_at : String
deriving DecidableEq, Repr

/-- Second half of the generate handler: only when `render_docx_rtf`
returned normally is the Case row inserted (`insert_case`); an exception
propagates and leaves the `cases` table untouched. -/
def insertAfterRender (out : RenderOutcome) (tid : Nat)
    (docName : Option String) (now : String) (cases : List CaseRow) :
    List CaseRow × RenderOutcome :=
  match out.result with
  | .ok (dp, rp) =>
    (cases ++ [⟨cases.length + 1, tid, docName, dp, rp, now⟩], out)
  | .error _ => (cases, out)

/-- The generate handler: render both artifacts, then insert the Case row
if and only if rendering returned normally. -/
def tab2Generate (env : ConvEnv) (stem : String) (tid : Nat)
    (docName : Option String) (now : String) (cases : List CaseRow) :
    List CaseRow × RenderOutcome :=
  insertAfterRender (render_docx_rtf env stem) tid docName now cases

/-- The set of filled-document paths the user can see in the "Generated
Documents" tab: `list_cases()` joins the `cases` table, so exactly the
`docx_path` column of the persisted Case rows is listable. -/
def listableDocx (cases : List CaseRow) : List String :=
  cases.map (·.docx_path)

/-- **C1** (All-or-nothing case creation): for every generation attempt,
a Case row is persisted only if both output artifacts exist on disk; if the
converter fails, no Case record is persisted and — provided the fresh
output stem does not collide with an already-listed artifact — no orphaned
filled-document artifact becomes listable to the user. -/
theorem case_creation_all_or_nothing (env : ConvEnv) (stem : String)
    (tid : Nat) (docName : Option String) (now : String) (cases : List CaseRow)
    (hfresh : ("outputs/" ++ stem ++ ".docx") ∉ listableDocx cases) :
    (∀ c ∈ (tab2Generate env stem tid docName now cases).1,
        c ∈ cases ∨
          ((tab2Generate env stem tid docName now cases).2.docxOnDisk = true
            ∧ (tab2Generate env stem tid docName now cases).2.rtfOnDisk = true))
    ∧ (∀ e, (render_docx_rtf env stem).result = .error e →
        (tab2Generate env stem tid docName now cases).1 = cases
          ∧ ("outputs/" ++ stem ++ ".docx")
              ∉ listableDocx (tab2Generate env stem tid docName now cases).1) := by
  unfold tab2Generate insertAfterRender
  rcases hres : (render_docx_rtf env stem).result with e | ⟨dp, rp⟩
  · constructor
    · intro c hc
      exact Or.inl hc
    · intro e' _
      exact ⟨rfl, hfresh⟩
  · have hdisk := render_docx_rtf_ok_disk env stem hres
    constructor
    · intro c hc
      exact Or.inr ⟨by rw [hdisk], by rw [hdisk]⟩
    · intro e he
      simp at he

/-- Witness for C1: a fully successful environment (Pandoc present,
conversion succeeds, 150 characters of text) starting from an empty cases
table. -/
theorem case_creation_all_or_nothing_witness :
    (("outputs/" ++ "acme-1" ++ ".docx") ∉ listableDocx [])
    ∧ ((∀ c ∈ (tab2Generate ⟨true, true, true, 150, false, false, 0⟩ "acme-1" 1
            none "t" []).1,
          c ∈ ([] : List CaseRow) ∨
            ((tab2Generate ⟨true, true, true, 150, false, false, 0⟩ "acme-1" 1
                none "t" []).2.docxOnDisk = true
              ∧ (tab2Generate ⟨true, true, true, 150, false, false, 0⟩ "acme-1" 1
                  none "t" []).2.rtfOnDisk = true))
        ∧ (∀ e, (render_docx_rtf ⟨true, true, true, 150, false, false, 0⟩
              "acme-1").result = .error e →
            (tab2Generate ⟨true, true, true, 150, false, false, 0⟩ "acme-1" 1
                none "t" []).1 = []
              ∧ ("outputs/" ++ "acme-1" ++ ".docx")
                  ∉ listableDocx (tab2Generate ⟨true, true, true, 150, false,
                      false, 0⟩ "acme-1" 1 none "t" []).1)) :=
  ⟨by simp [listableDocx],
    case_creation_all_or_nothing ⟨true, true, true, 150, false, false, 0⟩
      "acme-1" 1 none "t" [] (by simp [listableDocx])⟩

/-- **C3** (Fallback invocation) — the code contradicts the claim and its
own module docstring: with `pandoc` absent and `soffice` present and
working, `render_docx_rtf` does not fall back to LibreOffice but raises
`NameError` (`logging` is used in the except-block yet never imported), so
the conversion fails instead of succeeding with the fallback's output. -/
theorem fallback_never_reached_name_error :
    (render_docx_rtf ⟨true, false, true, 0, true, true, 5000⟩ "doc").result
        = .error .nameErrorLogging
      ∧ (⟨true, false, true, 0, true, true, 5000⟩ : ConvEnv).sofficeOnPath = true
      ∧ (render_docx_rtf_intended ⟨true, false, true, 0, true, true, 5000⟩
          "doc").result
        = .ok ("outputs/doc.docx", "outputs/doc.rtf") := by
  refine ⟨?_, rfl, ?_⟩
  · simp [render_docx_rtf, pandocTry]
  · simp [render_docx_rtf_intended, pandocTry]

/-- When the try-block returns normally, the Pandoc output passed the
sanity check: its extractable text length is at least 100. -/
lemma pandocTry_ok_textLen (env : ConvEnv) (stem : String) {p}
    (hp : (pandocTry env stem).result = .ok p) :
    100 ≤ env.pandocTextLen := by
  unfold pandocTry at hp
  by_cases h1 : env.pandocOnPath <;> by_cases h2 : env.pandocOk <;>
    by_cases h3 : env.pandocTextLen < 100 <;> simp_all

/-- **C2** (Fallback sanity check): in src/renderer.py, no conversion ever
silently accepts a sub-100-character fallback result as the returned
artifact — indeed the fallback engine never produces the returned artifact
at all: a result is returned only when the primary (Pandoc) path itself
produced it with at least 100 characters of extractable text, and whenever
the primary path fails the conversion fails outright (with the `NameError`
of claim C3) before the fallback could supply anything. The claim's
fallback-specific antecedent is therefore never realised by the shipped
code, and its guarantee holds. -/
theorem fallback_result_never_accepted (env : ConvEnv) (stem : String) :
    (∀ p, (render_docx_rtf env stem).result = .ok p →
        (pandocTry env stem).result = .ok p ∧ 100 ≤ env.pandocTextLen)
    ∧ ((pandocTry env stem).result.isOk = false →
        (render_docx_rtf env stem).result.isOk = false) := by
  constructor
  · intro p hp
    unfold render_docx_rtf at hp
    by_cases hf : env.fillOk
    · rw [if_neg (by simp [hf])] at hp
      rcases hres : (pandocTry env stem).result with e | q
      · rw [hres] at hp
        simp at hp
      · rw [hres] at hp
        simp at hp
        subst hp
        exact ⟨rfl, pandocTry_ok_textLen env stem hres⟩
    · rw [if_pos hf] at hp
      simp at hp
  · intro hfail
    unfold render_docx_rtf
    by_cases hf : env.fillOk
    · rw [if_neg (by simp [hf])]
      rcases hres : (pandocTry env stem).result with e | q
      · rfl
      · rw [hres] at hfail
        simp [Except.isOk, Except.toBool] at hfail
    · rw [if_pos hf]
      rfl

/-- Witness for C2: a successful attempt (Pandoc present, 150 characters)
exercises the first part; an attempt with Pandoc absent and soffice
present exercises the second — the conversion fails rather than returning
the fallback's (here 50-character) output. -/
theorem fallback_result_never_accepted_witness :
    ((pandocTry ⟨true, true, true, 150, false, false, 0⟩ "acme").result
        = .ok ("outputs/acme.docx", "outputs/acme.rtf")
      ∧ 100 ≤ (⟨true, true, true, 150, false, false, 0⟩ : ConvEnv).pandocTextLen)
    ∧ (render_docx_rtf ⟨true, false, true, 0, true, true, 50⟩
        "doc").result.isOk = false :=
  ⟨(fallback_result_never_accepted ⟨true, true, true, 150, false, false, 0⟩
      "acme").1 ("outputs/acme.docx", "outputs/acme.rtf") rfl,
   (fallback_result_never_accepted ⟨true, false, true, 0, true, true, 50⟩
      "doc").2 rfl⟩

/-! ## Manifest fields and `collect_ctx`
(src/app_b.py lines 134-151, src/app.py lines 232-265)

A manifest field is a JSON object `{"key", "label", "type"}`, with a
`"fields"` list of child fields when `"type" = "repeat"` (the group dicts
built by the inference code carry no `"label"`, hence the `Option`).
The Streamlit session state is modelled as two lookups: widget string
values (`val`) and the `::__count` number-input values (`cnt`). -/

/-- One manifest field entry. -/
inductive FieldSpec where
  | mk (key : String) (flabel : Option String) (ftype : String)
      (children : List FieldSpec)

def FieldSpec.key : FieldSpec → String
  | .mk k _ _ _ => k

def FieldSpec.flabel : FieldSpec → Option String
  | .mk _ l _ _ => l

def FieldSpec.ftype : FieldSpec → String
  | .mk _ _ t _ => t

def FieldSpec.children : FieldSpec → List FieldSpec
  | .mk _ _ _ ch => ch

/-- A value in the context dict built by `collect_ctx`: either a widget
value (`None` possible — `st.session_state.get` without default returns
`None`) or a list of sub-contexts for a repeat group. -/
inductive CtxVal where
  | prim (v : Option String)
  | rows (rs : List (List (String × CtxVal)))

/-- A context dict in insertion order. -/
abbrev Ctx := List (String × CtxVal)

/-- `collect_ctx` from src/app_b.py (lines 134-151):
scalar types `text`/`textarea` read `st.session_state.get(wkey, "")`;
`repeat` reads the count (default 1) and recurses once per repetition;
any other field type falls through with no entry. -/
def collectCtxB (val : String → Option String) (cnt : String → Option Int) :
    List FieldSpec → String → Ctx
  | [], _ => []
  | .mk key _ ftype children :: rest, parent =>
    let path := if parent = "" then key else parent ++ "." ++ key
    let wkey := "w::" ++ path
    if ftype = "text" ∨ ftype = "textarea" then
      (key, .prim (some ((val wkey).getD ""))) :: collectCtxB val cnt rest parent
    else if ftype = "repeat" then
      let count := ((cnt (wkey ++ "::__count")).getD 1).toNat
      (key, .rows ((List.range count).map (fun i =>
          collectCtxB val cnt children (path ++ "[" ++ toString i ++ "]"))))
        :: collectCtxB val cnt rest parent
    else
      collectCtxB val cnt rest parent
termination_by fs _ => sizeOf fs
decreasing_by all_goals (simp; try omega)

/-- `collect_ctx` from src/app.py (lines 232-265):
the widget path always includes the page prefix; the scalar types
`text`/`textarea`/`number`/`date`/`currency` and the fallback branch for
any other type both read `st.session_state.get(wkey)` (which is `None`
when absent); `repeat` recurses once per repetition. -/
def collectCtxA (val : String → Option String) (cnt : String → Option Int) :
    List FieldSpec → String → Ctx
  | [], _ => []
  | .mk key _ ftype children :: rest, parent =>
    let path := parent ++ "." ++ key
    let wkey := "w::" ++ path
    if ftype = "text" ∨ ftype = "textarea" ∨ ftype = "number"
        ∨ ftype = "date" ∨ ftype = "currency" then
      (key, .prim (val wkey)) :: collectCtxA val cnt rest parent
    else if ftype = "repeat" then
      let count := ((cnt (wkey ++ "::__count")).getD 1).toNat
      (key, .rows ((List.range count).map (fun i =>
          collectCtxA val cnt children (path ++ "[" ++ toString i ++ "]"))))
        :: collectCtxA val cnt rest parent
    else
      (key, .prim (val wkey)) :: collectCtxA val cnt rest parent
termination_by fs _ => sizeOf fs
decreasing_by all_goals (simp; try omega)

/-- The claimed structural isomorphism (spec §3/§4.3): the context has
exactly the field list's keys, in order; every scalar field's key appears
as a leaf entry, and every repeat field's key as a sequence each of whose
elements matches the group's children shape. -/
inductive MatchesShape : List FieldSpec → Ctx → Prop where
  | nil : MatchesShape [] []
  | scalar {k : String} {lb : Option String} {t : String}
      {ch rest : List FieldSpec} {ctx : Ctx} (v : Option String) :
      t ≠ "repeat" → MatchesShape rest ctx →
      MatchesShape (.mk k lb t ch :: rest) ((k, .prim v) :: ctx)
  | group {k : String} {lb : Option String} {ch rest : List FieldSpec}
      {ctx : Ctx} (rs : List Ctx) :
      (∀ r ∈ rs, MatchesShape ch r) → MatchesShape rest ctx →
      MatchesShape (.mk k lb "repeat" ch :: rest) ((k, .rows rs) :: ctx)

/-- Every field type in the list (recursively) is one that the app_b
`collect_ctx` recognises: `text`, `textarea`, or `repeat`. -/
def recognizedB : List FieldSpec → Bool
  | [] => true
  | .mk _ _ t ch :: rest =>
    (if t = "repeat" then recognizedB ch
     else (t = "text" || t = "textarea")) && recognizedB rest
termination_by fs => sizeOf fs
decreasing_by all_goals (simp; try omega)

/-- A context matching a nonempty field list is itself nonempty. -/
lemma MatchesShape.fields_nil {fs : List FieldSpec} {ctx : Ctx}
    (h : MatchesShape fs ctx) : ctx = [] → fs = [] := by
  cases h <;> simp

lemma collectCtxA_matches (val : String → Option String)
    (cnt : String → Option Int) :
    ∀ (fields : List FieldSpec) (parent : String),
      MatchesShape fields (collectCtxA val cnt fields parent) := by
  intro fields parent
  induction fields, parent using collectCtxA.induct val cnt with
  | case1 parent => rw [collectCtxA]; exact .nil
  | case2 key lb ftype children rest parent hscalar ih =>
    rw [collectCtxA, if_pos hscalar]
    refine .scalar _ ?_ ih
    rcases hscalar with h | h | h | h | h <;> (subst h; decide)
  | case3 key lb children rest parent path hscalar ihrow ih =>
    rw [collectCtxA, if_neg hscalar, if_pos rfl]
    refine .group _ ?_ ih
    intro r hr
    simp only [List.mem_map, List.mem_range] at hr
    obtain ⟨i, hi, rfl⟩ := hr
    exact ihrow i
  | case4 key lb ftype children rest parent hscalar hrep ih =>
    rw [collectCtxA, if_neg hscalar, if_neg hrep]
    exact .scalar _ hrep ih

lemma collectCtxB_matches (val : String → Option String)
    (cnt : String → Option Int) :
    ∀ (fields : List FieldSpec) (parent : String),
      recognizedB fields = true →
      MatchesShape fields (collectCtxB val cnt fields parent) := by
  intro fields parent
  induction fields, parent using collectCtxB.induct val cnt with
  | case1 parent => intro _; rw [collectCtxB]; exact .nil
  | case2 key lb ftype children rest parent hscalar ih =>
    intro hrec
    rw [recognizedB, Bool.and_eq_true] at hrec
    rw [collectCtxB, if_pos hscalar]
    refine .scalar _ ?_ (ih hrec.2)
    rcases hscalar with h | h <;> (subst h; decide)
  | case3 key lb children rest parent path hscalar ihrow ih =>
    intro hrec
    rw [recognizedB, if_pos rfl, Bool.and_eq_true] at hrec
    rw [collectCtxB, if_neg hscalar, if_pos rfl]
    refine .group _ ?_ (ih hrec.2)
    intro r hr
    simp only [List.mem_map, List.mem_range] at hr
    obtain ⟨i, hi, rfl⟩ := hr
    exact ihrow i hrec.1
  | case4 key lb ftype children rest parent hscalar hrep ih =>
    intro hrec
    rw [recognizedB, if_neg hrep, Bool.and_eq_true] at hrec
    have h1 := hrec.1
    simp at h1
    exact absurd h1 hscalar

/-- **C4 amended** (Context/manifest isomorphism): the app.py
`collect_ctx` builds a context whose keys and nesting exactly match the
manifest fields for *every* field list; the app_b variant does so for
every field list whose field types are all among `text`, `textarea`,
`repeat` (it silently drops entries of any other type, see the
counterexample). -/
theorem collect_ctx_matches_manifest :
    (∀ (val : String → Option String) (cnt : String → Option Int)
        (fields : List FieldSpec) (parent : String),
      MatchesShape fields (collectCtxA val cnt fields parent))
    ∧ (∀ (val : String → Option String) (cnt : String → Option Int)
        (fields : List FieldSpec) (parent : String),
      recognizedB fields = true →
      MatchesShape fields (collectCtxB val cnt fields parent)) :=
  ⟨fun val cnt => collectCtxA_matches val cnt,
   fun val cnt fields parent h => collectCtxB_matches val cnt fields parent h⟩

/-- Witness for the amended C4 theorem: the spec's round-trip manifest
(one scalar `client_name`, one repeat group `matter` with child `item`),
an empty value store and count 2. -/
theorem collect_ctx_matches_manifest_witness :
    recognizedB
        [.mk "client_name" (some "Client Name") "text" [],
         .mk "matter" none "repeat" [.mk "item" (some "Item") "text" []]] = true
    ∧ MatchesShape
        [.mk "client_name" (some "Client Name") "text" [],
         .mk "matter" none "repeat" [.mk "item" (some "Item") "text" []]]
        (collectCtxA (fun _ => none) (fun _ => some 2)
          [.mk "client_name" (some "Client Name") "text" [],
           .mk "matter" none "repeat" [.mk "item" (some "Item") "text" []]]
          "case_1")
    ∧ MatchesShape
        [.mk "client_name" (some "Client Name") "text" [],
         .mk "matter" none "repeat" [.mk "item" (some "Item") "text" []]]
        (collectCtxB (fun _ => none) (fun _ => some 2)
          [.mk "client_name" (some "Client Name") "text" [],
           .mk "matter" none "repeat" [.mk "item" (some "Item") "text" []]]
          "") := by
  have hrec : recognizedB
      [.mk "client_name" (some "Client Name") "text" [],
       .mk "matter" none "repeat" [.mk "item" (some "Item") "text" []]]
      = true := by
    simp [recognizedB]
  exact ⟨hrec,
    collect_ctx_matches_manifest.1 (fun _ => none) (fun _ => some 2) _ "case_1",
    collect_ctx_matches_manifest.2 (fun _ => none) (fun _ => some 2) _ "" hrec⟩

/-- **C4 counterexample**: the app_b `collect_ctx` (cited by the claim)
drops a field whose type is `date` — a type that occurs in the built-in
seeded manifests — so the built context is missing that manifest key and
the claimed isomorphism fails. -/
theorem collect_ctx_shape_counterexample :
    collectCtxB (fun _ => none) (fun _ => none)
        [.mk "effective_date" (some "Effective Date") "date" []] "" = []
    ∧ ¬ MatchesShape [.mk "effective_date" (some "Effective Date") "date" []]
        (collectCtxB (fun _ => none) (fun _ => none)
          [.mk "effective_date" (some "Effective Date") "date" []] "") := by
  have hB : collectCtxB (fun _ => none) (fun _ => none)
      [.mk "effective_date" (some "Effective Date") "date" []] "" = [] := by
    rw [collectCtxB, if_neg (by decide), if_neg (by decide), collectCtxB]
  refine ⟨hB, ?_⟩
  rw [hB]
  intro h
  have := MatchesShape.fields_nil h rfl
  simp at this

/-- **C7 amended** (Scalar default): for a scalar (`text`) FieldSpec, the
app_b `collect_ctx` maps an absent value to the empty string and a present
value to itself verbatim with no coercion, while the app.py `collect_ctx`
maps an absent value to `None` — not the empty string — and a present
value to itself verbatim. -/
theorem scalar_default_variants (val : String → Option String)
    (cnt : String → Option Int) (k : String) (lb : Option String)
    (parent : String) :
    (val ("w::" ++ (if parent = "" then k else parent ++ "." ++ k)) = none →
      collectCtxB val cnt [.mk k lb "text" []] parent
        = [(k, .prim (some ""))])
    ∧ (∀ s, val ("w::" ++ (if parent = "" then k else parent ++ "." ++ k))
          = some s →
      collectCtxB val cnt [.mk k lb "text" []] parent
        = [(k, .prim (some s))])
    ∧ (val ("w::" ++ (parent ++ "." ++ k)) = none →
      collectCtxA val cnt [.mk k lb "text" []] parent = [(k, .prim none)])
    ∧ (∀ s, val ("w::" ++ (parent ++ "." ++ k)) = some s →
      collectCtxA val cnt [.mk k lb "text" []] parent
        = [(k, .prim (some s))]) := by
  refine ⟨?_, ?_, ?_, ?_⟩
  · intro h
    rw [collectCtxB, if_pos (Or.inl rfl), h, collectCtxB]
    rfl
  · intro s h
    rw [collectCtxB, if_pos (Or.inl rfl), h, collectCtxB]
    rfl
  · intro h
    rw [collectCtxA, if_pos (Or.inl rfl), h, collectCtxA]
  · intro s h
    rw [collectCtxA, if_pos (Or.inl rfl), h, collectCtxA]

/-- Witness for the amended C7 theorem at concrete stores. -/
theorem scalar_default_variants_witness :
    collectCtxB (fun _ => none) (fun _ => none)
        [.mk "client_name" none "text" []] "" = [("client_name", .prim (some ""))]
    ∧ collectCtxB (fun s => if s = "w::client_name" then some "Acme" else none)
        (fun _ => none) [.mk "client_name" none "text" []] ""
      = [("client_name", .prim (some "Acme"))]
    ∧ collectCtxA (fun _ => none) (fun _ => none)
        [.mk "client_name" none "text" []] "case_1"
      = [("client_name", .prim none)] :=
  ⟨(scalar_default_variants (fun _ => none) (fun _ => none)
      "client_name" none "").1 rfl,
   (scalar_default_variants (fun s => if s = "w::client_name"
        then some "Acme" else none) (fun _ => none)
      "client_name" none "").2.1 "Acme" (by decide),
   (scalar_default_variants (fun _ => none) (fun _ => none)
      "client_name" none "case_1").2.2.1 rfl⟩

/-- **C7 counterexample**: the app.py `collect_ctx` (one of the two
implementations the claim cites) maps an absent scalar value to `None`,
not the empty string. -/
theorem scalar_default_counterexample :
    collectCtxA (fun _ => none) (fun _ => none)
        [.mk "client_name" (some "Client Name") "text" []] "case_1"
      = [("client_name", CtxVal.prim none)]
    ∧ CtxVal.prim none ≠ CtxVal.prim (some "") := by
  constructor
  · rw [collectCtxA, if_pos (Or.inl rfl), collectCtxA]
  · intro h
    simp at h

/-- **C8** (Repetition count boundary): for a repeat-group FieldSpec, a
stored count of 0 yields an empty sequence (not an error), and a stored
count of 3 yields exactly 3 sub-contexts built with the distinct path
suffixes `[0]`, `[1]`, `[2]` — in both `collect_ctx` variants. -/
theorem repeat_count_boundary (val : String → Option String)
    (cnt0 cnt3 : String → Option Int) (k : String) (lb : Option String)
    (ch : List FieldSpec) (parent : String)
    (h0b : cnt0 ("w::" ++ (if parent = "" then k else parent ++ "." ++ k)
        ++ "::__count") = some 0)
    (h3b : cnt3 ("w::" ++ (if parent = "" then k else parent ++ "." ++ k)
        ++ "::__count") = some 3)
    (h0a : cnt0 ("w::" ++ (parent ++ "." ++ k) ++ "::__count") = some 0)
    (h3a : cnt3 ("w::" ++ (parent ++ "." ++ k) ++ "::__count") = some 3) :
    (collectCtxB val cnt0 [.mk k lb "repeat" ch] parent = [(k, .rows [])])
    ∧ (collectCtxB val cnt3 [.mk k lb "repeat" ch] parent
      = [(k, .rows [
          collectCtxB val cnt3 ch
            ((if parent = "" then k else parent ++ "." ++ k)
              ++ "[" ++ toString (0 : Nat) ++ "]"),
          collectCtxB val cnt3 ch
            ((if parent = "" then k else parent ++ "." ++ k)
              ++ "[" ++ toString (1 : Nat) ++ "]"),
          collectCtxB val cnt3 ch
            ((if parent = "" then k else parent ++ "." ++ k)
              ++ "[" ++ toString (2 : Nat) ++ "]")])])
    ∧ (collectCtxA val cnt0 [.mk k lb "repeat" ch] parent = [(k, .rows [])])
    ∧ (collectCtxA val cnt3 [.mk k lb "repeat" ch] parent
      = [(k, .rows [
          collectCtxA val cnt3 ch
            (parent ++ "." ++ k ++ "[" ++ toString (0 : Nat) ++ "]"),
          collectCtxA val cnt3 ch
            (parent ++ "." ++ k ++ "[" ++ toString (1 : Nat) ++ "]"),
          collectCtxA val cnt3 ch
            (parent ++ "." ++ k ++ "[" ++ toString (2 : Nat) ++ "]")])]) := by
  refine ⟨?_, ?_, ?_, ?_⟩
  · rw [collectCtxB, if_neg (by decide), if_pos rfl, h0b]
    simp [collectCtxB]
  · rw [collectCtxB, if_neg (by decide), if_pos rfl, h3b]
    simp [collectCtxB, List.range_succ]
  · rw [collectCtxA, if_neg (by decide), if_pos rfl, h0a]
    simp [collectCtxA]
  · rw [collectCtxA, if_neg (by decide), if_pos rfl, h3a]
    simp [collectCtxA, List.range_succ]

/-- Witness for C8: concrete count stores holding 0 and 3 under the
widget-count keys of the group `matter`. -/
theorem repeat_count_boundary_witness :
    collectCtxB (fun _ => none) (fun _ => some 0)
        [.mk "matter" none "repeat" [.mk "item" none "text" []]] ""
      = [("matter", .rows [])]
    ∧ collectCtxA (fun _ => none) (fun _ => some 3)
        [.mk "matter" none "repeat" [.mk "item" none "text" []]] "case_1"
      = [("matter", .rows [
          collectCtxA (fun _ => none) (fun _ => some 3)
            [.mk "item" none "text" []]
            ("case_1" ++ "." ++ "matter" ++ "[" ++ toString (0 : Nat) ++ "]"),
          collectCtxA (fun _ => none) (fun _ => some 3)
            [.mk "item" none "text" []]
            ("case_1" ++ "." ++ "matter" ++ "[" ++ toString (1 : Nat) ++ "]"),
          collectCtxA (fun _ => none) (fun _ => some 3)
            [.mk "item" none "text" []]
            ("case_1" ++ "." ++ "matter" ++ "[" ++ toString (2 : Nat) ++ "]")])] :=
  ⟨(repeat_count_boundary (fun _ => none) (fun _ => some 0) (fun _ => some 3)
      "matter" none [.mk "item" none "text" []] "" rfl rfl rfl rfl).1,
   (repeat_count_boundary (fun _ => none) (fun _ => some 0) (fun _ => some 3)
      "matter" none [.mk "item" none "text" []] "case_1" rfl rfl rfl rfl).2.2.2⟩

/-! ## `extract_placeholders`
(src/utils.py lines 46-68, src/utils_b.py lines 87-127)

utils.py:   `_FIELD_RE = re.compile(r"\{\{\s*([^{}\s]+)\s*\}\}")`
utils_b.py: `_FIELD_RE = re.compile(r"{{\s*([a-zA-Z0-9_.\[\]]+)\s*}}")`

Both scan every paragraph and every cell of every table of the document
and return `sorted(keys)` of the set of captures. For these two patterns
regex backtracking is vacuous: each capture class excludes whitespace and
both braces, so after the greedy class run neither giving characters back
to `\s*` nor to `}}` can ever succeed. `re.findall` is therefore the
deterministic left-to-right scanner below: at each position try to match
`{{`, skip whitespace, take the maximal nonempty run of class characters,
skip whitespace, match `}}`; on success emit the capture and continue
after the closing braces, otherwise advance one character. -/

/-- Python's `\s` on the characters that occur in DOCX text runs:
space, tab, newline, carriage return, vertical tab, form feed. -/
def isPySpace (c : Char) : Bool :=
  c == ' ' || c == '\t' || c == '\n' || c == '\r' || c == '\x0b' || c == '\x0c'

/-- The capture class `[a-zA-Z0-9_.\[\]]` of utils_b.py. -/
def goodB (c : Char) : Bool :=
  c.isAlpha || c.isDigit || c == '_' || c == '.' || c == '[' || c == ']'

/-- The capture class `[^{}\s]` of utils.py. -/
def goodU (c : Char) : Bool :=
  !(c == '{' || c == '}' || isPySpace c)

/-- Match `{{` whitespace capture whitespace `}}` at the head of the
character list; return the capture and the remainder after `}}`. -/
def matchTok (good : Char → Bool) : List Char → Option (String × List Char)
  | '{' :: '{' :: rest =>
    let rest1 := rest.dropWhile isPySpace
    let run := rest1.takeWhile good
    let rest2 := rest1.dropWhile good
    if run.isEmpty then none
    else
      match rest2.dropWhile isPySpace with
      | '}' :: '}' :: tail => some (String.mk run, tail)
      | _ => none
  | _ => none

/-- One successful `matchTok` consumes at least the two opening braces. -/
lemma matchTok_rest_length {good : Char → Bool} {cs : List Char}
    {t : String} {tail : List Char} (h : matchTok good cs = some (t, tail)) :
    tail.length < cs.length := by
  unfold matchTok at h
  split at h
  next rest =>
    simp only [] at h
    split at h
    · exact absurd h (by simp)
    · split at h
      next heq =>
        simp only [Option.some.injEq, Prod.mk.injEq] at h
        obtain ⟨-, rfl⟩ := h
        have h1 : (((rest.dropWhile isPySpace).dropWhile good).dropWhile
            isPySpace).length ≤ rest.length :=
          le_trans (List.dropWhile_sublist _).length_le
            (le_trans (List.dropWhile_sublist _).length_le
              (List.dropWhile_sublist _).length_le)
        rw [heq] at h1
        simp at h1 ⊢
        omega
      next => exact absurd h (by simp)
  next => exact absurd h (by simp)

/-- The `re.findall` scan loop, with explicit fuel so that it is
structurally recursive (each loop step consumes at least one character, so
`cs.length` fuel is always enough — `findTokens_fuel_free` below). -/
def findTokensAux (good : Char → Bool) : Nat → List Char → List String
  | 0, _ => []
  | _ + 1, [] => []
  | fuel + 1, c :: rest =>
    match matchTok good (c :: rest) with
    | some (t, tail) => t :: findTokensAux good fuel tail
    | none => findTokensAux good fuel rest

/-- `re.findall` of the placeholder pattern over one text: scan left to
right, emitting each match's capture and continuing after it. -/
def findTokens (good : Char → Bool) (cs : List Char) : List String :=
  findTokensAux good cs.length cs

/-- Any fuel of at least `cs.length` computes the same token list, so the
fuel in `findTokens` is an implementation artifact, not a truncation. -/
lemma findTokens_fuel_free {good : Char → Bool} (fuel : Nat) :
    ∀ (cs : List Char), cs.length ≤ fuel →
      findTokensAux good fuel cs = findTokens good cs := by
  induction fuel using Nat.strong_induction_on with
  | _ n ih =>
    intro cs hle
    cases n with
    | zero =>
      rw [Nat.le_zero, List.length_eq_zero] at hle
      subst hle
      rfl
    | succ m =>
      cases cs with
      | nil => rfl
      | cons c rest =>
        rw [findTokens]
        have hlen : (c :: rest).length = rest.length + 1 := by simp
        rw [hlen, findTokensAux, findTokensAux]
        have hle' : rest.length ≤ m := by simpa using hle
        rcases hm : matchTok good (c :: rest) with _ | ⟨t, tail⟩
        · show findTokensAux good m rest = findTokensAux good rest.length rest
          rw [ih m (Nat.lt_succ_self m) rest hle',
            ih rest.length (by omega) rest (le_refl _)]
        · have htail := matchTok_rest_length hm
          simp only [List.length_cons] at htail
          show t :: findTokensAux good m tail
              = t :: findTokensAux good rest.length tail
          rw [ih m (Nat.lt_succ_self m) tail (by omega),
            ih rest.length (by omega) tail (by omega)]

/-- A parsed DOCX as python-docx exposes it to `extract_placeholders`:
paragraph texts, and tables as rows of cell texts. -/
structure Doc where
  paragraphs : List String
  tables : List (List (List String))

/-- Every text-bearing unit visited: each paragraph, then each cell of
each row of each table. -/
def docTexts (d : Doc) : List String :=
  d.paragraphs ++ d.tables.flatMap (fun t => t.flatMap (fun row => row))

/-- Python `sorted(keys)` for a set of strings: the distinct elements in
lexicographic order. -/
def sortedKeys (l : List String) : List String :=
  l.toFinset.sort (· ≤ ·)

/-- `extract_placeholders` from src/utils_b.py: collect the captures of
its pattern over every paragraph and table cell, deduplicate, sort. -/
def extract_placeholders_b (d : Doc) : List String :=
  sortedKeys ((docTexts d).flatMap (fun s => findTokens goodB s.data))

/-- `extract_placeholders` from src/utils.py — identical traversal but
with the looser capture class `[^{}\s]+`. -/
def extract_placeholders_u (d : Doc) : List String :=
  sortedKeys ((docTexts d).flatMap (fun s => findTokens goodU s.data))

lemma matchTok_all_good {good : Char → Bool} {cs : List Char} {t : String}
    {tail : List Char} (h : matchTok good cs = some (t, tail)) :
    t.data.all good = true := by
  unfold matchTok at h
  split at h
  next rest =>
    simp only [] at h
    split at h
    · exact absurd h (by simp)
    · split at h
      next =>
        simp only [Option.some.injEq, Prod.mk.injEq] at h
        obtain ⟨rfl, -⟩ := h
        rw [List.all_eq_true]
        intro c hc
        exact List.mem_takeWhile_imp hc
      next => exact absurd h (by simp)
  next => exact absurd h (by simp)

lemma findTokensAux_all_good {good : Char → Bool} :
    ∀ {fuel : Nat} {cs : List Char} {t : String},
      t ∈ findTokensAux good fuel cs → t.data.all good = true := by
  intro fuel
  induction fuel with
  | zero => intro cs t h; rw [findTokensAux] at h; simp at h
  | succ n ih =>
    intro cs t h
    cases cs with
    | nil => rw [findTokensAux] at h; simp at h
    | cons c rest =>
      rw [findTokensAux] at h
      rcases hm : matchTok good (c :: rest) with _ | ⟨t', tail⟩
      · rw [hm] at h
        exact ih h
      · rw [hm] at h
        rcases List.mem_cons.mp h with rfl | h'
        · exact matchTok_all_good hm
        · exact ih h'

lemma findTokens_all_good {good : Char → Bool} {cs : List Char} {t : String}
    (h : t ∈ findTokens good cs) : t.data.all good = true :=
  findTokensAux_all_good h

/-- **C5 amended** (Scanner output): the utils_b.py extractor returns
exactly the deduplicated, lexicographically sorted captures of the claimed
grammar over every paragraph and table cell, and every returned string
consists only of letters, digits, underscore, period and square brackets.
The utils.py extractor (equally cited by the claim) performs the same
traversal but with the looser class `[^{}\s]+`, so its outputs are only
guaranteed brace- and whitespace-free — a double-brace-delimited string
with other special characters inside *is* returned by it (see the
counterexample). -/
theorem scanner_output_spec (d : Doc) :
    ((extract_placeholders_b d).Sorted (· < ·)
      ∧ ∀ t, t ∈ extract_placeholders_b d ↔
          ∃ s ∈ docTexts d, t ∈ findTokens goodB s.data)
    ∧ (∀ t, t ∈ extract_placeholders_b d → t.data.all goodB = true)
    ∧ (∀ t, t ∈ extract_placeholders_u d → t.data.all goodU = true) := by
  refine ⟨⟨?_, ?_⟩, ?_, ?_⟩
  · rw [extract_placeholders_b, sortedKeys]
    exact Finset.sort_sorted_lt _
  · intro t
    rw [extract_placeholders_b, sortedKeys, Finset.mem_sort,
      List.mem_toFinset, List.mem_flatMap]
  · intro t ht
    rw [extract_placeholders_b, sortedKeys, Finset.mem_sort,
      List.mem_toFinset, List.mem_flatMap] at ht
    obtain ⟨s, -, hs⟩ := ht
    exact findTokens_all_good hs
  · intro t ht
    rw [extract_placeholders_u, sortedKeys, Finset.mem_sort,
      List.mem_toFinset, List.mem_flatMap] at ht
    obtain ⟨s, -, hs⟩ := ht
    exact findTokens_all_good hs

/-- **C5 counterexample**: on a document whose single paragraph is
`{{a-b}}`, the utils.py extractor returns `["a-b"]` although `-` is
outside the claimed character class — a double-brace-delimited string with
a disallowed inner character *is* returned. -/
theorem scanner_grammar_counterexample :
    extract_placeholders_u ⟨["{{a-b}}"], []⟩ = ["a-b"]
    ∧ '-' ∈ "a-b".data ∧ goodB '-' = false := by
  refine ⟨?_, by decide, by decide⟩
  have h2 : findTokens goodU ("{{a-b}}".data) = ["a-b"] := by decide
  rw [extract_placeholders_u, docTexts]
  simp only [List.flatMap_nil, List.append_nil, List.flatMap_cons, h2]
  rw [sortedKeys]
  simp

/-! ## Manifest inference
(src/app.py lines 367-393 and src/app_b.py lines 198-226 — the same
algorithm: one pass over the extracted keys, scalars kept in order,
repeat groups collected in an insertion-ordered dict and appended after
the scalars.) -/

/-- `raw.replace("[]", "")`: remove every occurrence of the two-character
substring `[]`, scanning left to right. -/
def stripBrackets : List Char → List Char
  | '[' :: ']' :: rest => stripBrackets rest
  | c :: rest => c :: stripBrackets rest
  | [] => []

/-- `.replace(".", " ").replace("_", " ")` on one character. -/
def dotUnderToSpace (c : Char) : Char :=
  if c = '.' ∨ c = '_' then ' ' else c

/-- The uppercase table of Python `str.title()` restricted to ASCII. -/
def pyUpperChar (c : Char) : Char :=
  match c with
  | 'a' => 'A' | 'b' => 'B' | 'c' => 'C' | 'd' => 'D' | 'e' => 'E'
  | 'f' => 'F' | 'g' => 'G' | 'h' => 'H' | 'i' => 'I' | 'j' => 'J'
  | 'k' => 'K' | 'l' => 'L' | 'm' => 'M' | 'n' => 'N' | 'o' => 'O'
  | 'p' => 'P' | 'q' => 'Q' | 'r' => 'R' | 's' => 'S' | 't' => 'T'
  | 'u' => 'U' | 'v' => 'V' | 'w' => 'W' | 'x' => 'X' | 'y' => 'Y'
  | 'z' => 'Z'
  | c => c

/-- Python `str.title()` on ASCII text: a letter that follows a letter is
lowercased, a letter that follows anything else is uppercased. The flag
records whether the previous character was a letter. -/
def pyTitleAux : Bool → List Char → List Char
  | _, [] => []
  | prevCased, c :: rest =>
    if c.isAlpha then
      (if prevCased then pyLowerChar c else pyUpperChar c)
        :: pyTitleAux true rest
    else
      c :: pyTitleAux false rest

/-- `_make_label` (src/app.py) / `prettify` (src/app_b.py):
`raw.replace("[]", "").replace(".", " ").replace("_", " ").title()`. -/
def makeLabel (raw : String) : String :=
  String.mk (pyTitleAux false ((stripBrackets raw.data).map dotUnderToSpace))

/-- Find the first occurrence of the substring `[].` and split around it. -/
def splitRepeatAux : List Char → Option (List Char × List Char)
  | '[' :: ']' :: '.' :: rest => some ([], rest)
  | c :: rest =>
    match splitRepeatAux rest with
    | some (pre, post) => some (c :: pre, post)
    | none => none
  | [] => none

/-- `"[]." in k` / `k.split("[].", 1)`: `some (root, sub)` splits `k` at
the first occurrence of `[].`; `none` means the substring is absent. -/
def splitRepeat (k : String) : Option (String × String) :=
  match splitRepeatAux k.data with
  | some (pre, post) => some (String.mk pre, String.mk post)
  | none => none

/-- A scalar manifest entry `{"key": k, "label": _make_label(k),
"type": "text"}`. -/
def scalarField (k : String) : FieldSpec :=
  .mk k (some (makeLabel k)) "text" []

/-- A repeat-group child entry. -/
def childField (sub : String) : FieldSpec :=
  .mk sub (some (makeLabel sub)) "text" []

/-- `repeats.setdefault(root, []).append(sub)` on an insertion-ordered
dict represented as an association list. -/
def addRepeat (root sub : String) :
    List (String × List String) → List (String × List String)
  | [] => [(root, [sub])]
  | (r, subs) :: rest =>
    if r = root then (r, subs ++ [sub]) :: rest
    else (r, subs) :: addRepeat root sub rest

/-- One iteration of the `for k in keys` loop. -/
def inferStep (acc : List FieldSpec × List (String × List String))
    (k : String) : List FieldSpec × List (String × List String) :=
  match splitRepeat k with
  | some (root, sub) => (acc.1, addRepeat root sub acc.2)
  | none => (acc.1 ++ [scalarField k], acc.2)

/-- The manifest-field inference of the Create Template page: classify
every key, then append one repeat-group FieldSpec per root (children in
collected order) after all scalar fields. -/
def inferFields (keys : List String) : List FieldSpec :=
  let st := keys.foldl inferStep ([], [])
  st.1 ++ st.2.map (fun rs => .mk rs.1 none "repeat" (rs.2.map childField))

/-- The sub-keys contributed to group `r` by `keys`, in order. -/
def subsFor (r : String) (keys : List String) : List String :=
  keys.filterMap (fun k =>
    match splitRepeat k with
    | some (root, sub) => if root = r then some sub else none
    | none => none)

/-- First-seen-order deduplication, excluding anything in `seen`. -/
def firstSeen (seen : List String) : List String → List String
  | [] => []
  | x :: xs =>
    if x ∈ seen then firstSeen seen xs
    else x :: firstSeen (x :: seen) xs

lemma subsFor_cons_none {k : String} (h : splitRepeat k = none)
    (r : String) (ks : List String) :
    subsFor r (k :: ks) = subsFor r ks := by
  rw [subsFor, List.filterMap_cons]
  simp only [h]
  rfl

lemma subsFor_cons_some {k r0 s0 : String}
    (h : splitRepeat k = some (r0, s0)) (r : String) (ks : List String) :
    subsFor r (k :: ks)
      = if r0 = r then s0 :: subsFor r ks else subsFor r ks := by
  rw [subsFor, List.filterMap_cons]
  simp only [h]
  by_cases hr : r0 = r
  · rw [if_pos hr, if_pos hr]
    rfl
  · rw [if_neg hr, if_neg hr]
    rfl

lemma roots_cons_none {k : String} (h : splitRepeat k = none)
    (ks : List String) :
    (k :: ks).filterMap (fun k => (splitRepeat k).map Prod.fst)
      = ks.filterMap (fun k => (splitRepeat k).map Prod.fst) := by
  rw [List.filterMap_cons]
  simp [h]

lemma roots_cons_some {k r0 s0 : String}
    (h : splitRepeat k = some (r0, s0)) (ks : List String) :
    (k :: ks).filterMap (fun k => (splitRepeat k).map Prod.fst)
      = r0 :: ks.filterMap (fun k => (splitRepeat k).map Prod.fst) := by
  rw [List.filterMap_cons]
  simp [h]

lemma addRepeat_not_mem {root sub : String} :
    ∀ {l : List (String × List String)}, root ∉ l.map Prod.fst →
      addRepeat root sub l = l ++ [(root, [sub])] := by
  intro l
  induction l with
  | nil => intro _; rfl
  | cons p rest ih =>
    obtain ⟨r, subs⟩ := p
    intro h
    simp only [List.map_cons, List.mem_cons, not_or] at h
    rw [addRepeat, if_neg (fun he => h.1 he.symm), List.cons_append, ih h.2]

lemma map_if_fst_eq_self {root sub : String} :
    ∀ {l : List (String × List String)}, root ∉ l.map Prod.fst →
      l.map (fun rs => if rs.1 = root then (rs.1, rs.2 ++ [sub]) else rs)
        = l := by
  intro l
  induction l with
  | nil => intro _; rfl
  | cons p rest ih =>
    obtain ⟨r, subs⟩ := p
    intro h
    simp only [List.map_cons, List.mem_cons, not_or] at h
    rw [List.map_cons, if_neg (fun he => h.1 (by simpa using he.symm)), ih h.2]

lemma addRepeat_mem {root sub : String} :
    ∀ {l : List (String × List String)}, (l.map Prod.fst).Nodup →
      root ∈ l.map Prod.fst →
      addRepeat root sub l
        = l.map (fun rs => if rs.1 = root then (rs.1, rs.2 ++ [sub]) else rs) := by
  intro l
  induction l with
  | nil => intro _ h; simp at h
  | cons p rest ih =>
    obtain ⟨r, subs⟩ := p
    intro hnd hmem
    simp only [List.map_cons, List.nodup_cons] at hnd
    by_cases hr : r = root
    · subst hr
      rw [addRepeat, if_pos rfl, List.map_cons, if_pos rfl,
        map_if_fst_eq_self hnd.1]
    · rw [addRepeat, if_neg hr, List.map_cons, if_neg (by simpa using hr)]
      have hmem' : root ∈ rest.map Prod.fst := by
        rcases List.mem_cons.mp hmem with he | hm
        · exact absurd he.symm hr
        · exact hm
      rw [ih hnd.2 hmem']

lemma mem_firstSeen_not_seen :
    ∀ {l seen : List String} {x : String}, x ∈ firstSeen seen l → x ∉ seen := by
  intro l
  induction l with
  | nil => intro seen x h; rw [firstSeen] at h; simp at h
  | cons y ys ih =>
    intro seen x h
    rw [firstSeen] at h
    by_cases hy : y ∈ seen
    · rw [if_pos hy] at h
      exact ih h
    · rw [if_neg hy] at h
      rcases List.mem_cons.mp h with rfl | h'
      · exact hy
      · intro hx
        exact ih h' (List.mem_cons_of_mem _ hx)

lemma firstSeen_congr :
    ∀ {l seen1 seen2 : List String}, (∀ x, x ∈ seen1 ↔ x ∈ seen2) →
      firstSeen seen1 l = firstSeen seen2 l := by
  intro l
  induction l with
  | nil => intro seen1 seen2 _; rfl
  | cons y ys ih =>
    intro seen1 seen2 hiff
    rw [firstSeen, firstSeen]
    by_cases hy : y ∈ seen1
    · rw [if_pos hy, if_pos ((hiff y).mp hy)]
      exact ih hiff
    · rw [if_neg hy, if_neg (fun hc => hy ((hiff y).mpr hc))]
      refine congrArg _ (ih ?_)
      intro x
      simp only [List.mem_cons]
      exact or_congr Iff.rfl (hiff x)

lemma foldl_inferStep_fst :
    ∀ (keys : List String) (s : List FieldSpec)
      (a : List (String × List String)),
      (keys.foldl inferStep (s, a)).1
        = s ++ (keys.filter (fun k => (splitRepeat k).isNone)).map scalarField := by
  intro keys
  induction keys with
  | nil => intro s a; simp
  | cons k ks ih =>
    intro s a
    rw [List.foldl_cons]
    rcases h : splitRepeat k with _ | ⟨r0, s0⟩
    · have hstep : inferStep (s, a) k = (s ++ [scalarField k], a) := by
        rw [inferStep, h]
      rw [hstep, ih, List.filter_cons_of_pos (by simp [h])]
      simp
    · have hstep : inferStep (s, a) k = (s, addRepeat r0 s0 a) := by
        rw [inferStep, h]
      rw [hstep, ih, List.filter_cons_of_neg (by simp [h])]

lemma foldl_inferStep_snd :
    ∀ (keys : List String) (s : List FieldSpec)
      (a : List (String × List String)), (a.map Prod.fst).Nodup →
      (keys.foldl inferStep (s, a)).2
        = a.map (fun rs => (rs.1, rs.2 ++ subsFor rs.1 keys))
          ++ (firstSeen (a.map Prod.fst)
              (keys.filterMap (fun k => (splitRepeat k).map Prod.fst))).map
            (fun r => (r, subsFor r keys)) := by
  intro keys
  induction keys with
  | nil =>
    intro s a _
    simp [subsFor, firstSeen]
  | cons k ks ih =>
    intro s a hnd
    rw [List.foldl_cons]
    rcases h : splitRepeat k with _ | ⟨r0, s0⟩
    · have hstep : inferStep (s, a) k = (s ++ [scalarField k], a) := by
        rw [inferStep, h]
      rw [hstep, ih _ _ hnd, roots_cons_none h]
      simp only [subsFor_cons_none h]
    · have hstep : inferStep (s, a) k = (s, addRepeat r0 s0 a) := by
        rw [inferStep, h]
      rw [hstep, roots_cons_some h]
      by_cases hmem : r0 ∈ a.map Prod.fst
      · rw [addRepeat_mem hnd hmem]
        have hfst : (a.map (fun rs =>
            if rs.1 = r0 then (rs.1, rs.2 ++ [s0]) else rs)).map Prod.fst
              = a.map Prod.fst := by
          rw [List.map_map]
          refine List.map_congr_left ?_
          intro rs _
          by_cases hr : rs.1 = r0 <;> simp [hr]
        rw [ih _ _ (by rw [hfst]; exact hnd), hfst]
        rw [firstSeen, if_pos hmem]
        congr 1
        · rw [List.map_map]
          refine List.map_congr_left ?_
          intro rs _
          by_cases hr : rs.1 = r0
          · simp only [Function.comp_apply, if_pos hr,
              subsFor_cons_some h, hr, if_pos rfl]
            simp
          · simp only [Function.comp_apply, if_neg hr,
              subsFor_cons_some h]
            rw [if_neg (fun he => hr he.symm)]
        · refine List.map_congr_left ?_
          intro r hr
          have hnot := mem_firstSeen_not_seen hr
          have hne : r0 ≠ r := fun he => hnot (he ▸ hmem)
          rw [subsFor_cons_some h, if_neg hne]
      · rw [addRepeat_not_mem hmem]
        have hfst2 : ((a ++ [(r0, [s0])]).map Prod.fst)
            = a.map Prod.fst ++ [r0] := by simp
        have hnd2 : ((a ++ [(r0, [s0])]).map Prod.fst).Nodup := by
          rw [hfst2]
          simp [List.nodup_append, hnd, hmem]
        rw [ih _ _ hnd2, hfst2]
        rw [firstSeen, if_neg hmem]
        rw [List.map_append, List.map_cons, List.map_cons]
        rw [List.append_assoc]
        congr 1
        · refine List.map_congr_left ?_
          intro rs hrs
          have hne : rs.1 ≠ r0 := by
            intro he
            exact hmem (he ▸ List.mem_map_of_mem Prod.fst hrs)
          rw [subsFor_cons_some h, if_neg (fun he => hne he.symm)]
        · simp only [List.map_nil, List.nil_append, List.cons_append]
          have hfs : firstSeen (List.map Prod.fst a ++ [r0])
                (ks.filterMap (fun k => (splitRepeat k).map Prod.fst))
              = firstSeen (r0 :: List.map Prod.fst a)
                (ks.filterMap (fun k => (splitRepeat k).map Prod.fst)) :=
            firstSeen_congr (by intro x; simp [or_comm])
          rw [hfs]
          congr 1
          · rw [subsFor_cons_some h, if_pos rfl]
          · refine List.map_congr_left ?_
            intro r hr
            have hnot := mem_firstSeen_not_seen hr
            have hne : r0 ≠ r := by
              intro he
              exact hnot (he ▸ List.mem_cons_self r0 _)
            rw [subsFor_cons_some h, if_neg hne]

/-- `splitRepeatAux` really splits around an occurrence of `[].`. -/
lemma splitRepeatAux_eq :
    ∀ {cs pre post : List Char}, splitRepeatAux cs = some (pre, post) →
      cs = pre ++ '[' :: ']' :: '.' :: post := by
  intro cs
  induction cs with
  | nil =>
    intro pre post h
    unfold splitRepeatAux at h
    simp at h
  | cons c rest ih =>
    intro pre post h
    unfold splitRepeatAux at h
    split at h
    next x rest' heq =>
      obtain ⟨rfl, rfl⟩ : c = '[' ∧ rest = ']' :: '.' :: rest' := by
        injection heq with h1 h2
        exact ⟨h1, h2⟩
      simp only [Option.some.injEq, Prod.mk.injEq] at h
      obtain ⟨rfl, rfl⟩ := h
      rfl
    next x c' rest' hne heq =>
      obtain ⟨rfl, rfl⟩ : c = c' ∧ rest = rest' := by
        injection heq with h1 h2
        exact ⟨h1, h2⟩
      split at h
      next pre' post' heq2 =>
        simp only [Option.some.injEq, Prod.mk.injEq] at h
        obtain ⟨rfl, rfl⟩ := h
        rw [List.cons_append]
        exact congrArg _ (ih heq2)
      next => exact absurd h (by simp)
    next x heq =>
      exact absurd heq (by simp)

/-- A key recognised as a repeat member reconstructs from its parts. -/
lemma splitRepeat_eq {k root sub : String}
    (h : splitRepeat k = some (root, sub)) :
    k.data = root.data ++ '[' :: ']' :: '.' :: sub.data := by
  unfold splitRepeat at h
  split at h
  next pre post heq =>
    simp only [Option.some.injEq, Prod.mk.injEq] at h
    obtain ⟨rfl, rfl⟩ := h
    exact splitRepeatAux_eq heq
  next => exact absurd h (by simp)

/-- With deduplicated keys (the scanner's output is a sorted set), each
group's sub-keys are distinct. -/
lemma subsFor_nodup {keys : List String} (h : keys.Nodup) (r : String) :
    (subsFor r keys).Nodup := by
  refine List.Nodup.filterMap ?_ h
  intro a a' b hb hb'
  rcases ha : splitRepeat a with _ | ⟨ra, sa⟩ <;> rw [ha] at hb
  · simp at hb
  · rcases ha' : splitRepeat a' with _ | ⟨ra', sa'⟩ <;> rw [ha'] at hb'
    · simp at hb'
    · simp at hb hb'
      obtain ⟨hra, hsa⟩ := hb
      obtain ⟨hra', hsa'⟩ := hb'
      subst hra hra' hsa hsa'
      have e1 := splitRepeat_eq ha
      have e2 := splitRepeat_eq ha'
      have hd : a.data = a'.data := by rw [e1, e2]
      cases a; cases a'
      exact congrArg String.mk hd

/-- **C6** (Schema inference): the inference splits every key containing
`[].` at its first occurrence into root and sub; keys without `[].`
become scalar FieldSpecs keyed by the whole token in input order; all
repeat-group FieldSpecs follow the scalars, roots in first-seen order,
each group's children being that root's subs in first-seen order — and,
for deduplicated key lists (the scanner output), each group's subs are
distinct. -/
theorem manifest_inference_spec (keys : List String) :
    inferFields keys
      = (keys.filter (fun k => (splitRepeat k).isNone)).map scalarField
        ++ (firstSeen []
            (keys.filterMap (fun k => (splitRepeat k).map Prod.fst))).map
          (fun r => .mk r none "repeat" ((subsFor r keys).map childField))
    ∧ (keys.Nodup → ∀ r, (subsFor r keys).Nodup) := by
  constructor
  · rw [inferFields]
    rw [foldl_inferStep_fst keys [] [], foldl_inferStep_snd keys [] [] (by simp)]
    simp [List.map_map, Function.comp_def]
  · intro h r
    exact subsFor_nodup h r

/-- Witness for C6: the spec's round-trip keys plus a second `matter` sub;
the inferred manifest has the scalar first, then one repeat group whose
children are the distinct subs in first-seen order. -/
theorem manifest_inference_spec_witness :
    inferFields ["client_name", "matter[].date", "matter[].item"]
      = [scalarField "client_name",
         .mk "matter" none "repeat" [childField "date", childField "item"]]
    ∧ (subsFor "matter" ["client_name", "matter[].date", "matter[].item"]).Nodup :=
  ⟨by rfl,
   (manifest_inference_spec ["client_name", "matter[].date", "matter[].item"]).2
     (by decide) "matter"⟩

/-- Witness for the amended C5 theorem: the spec §8 example document — a
paragraph `{{name}}`, a table whose row has cells `{{name}}` and
`{{date}}`. The theorem is applied to show membership and the
character-class guarantee for a returned token. -/
theorem scanner_output_spec_witness :
    ("name" ∈ extract_placeholders_b
        ⟨["{{name}}"], [[["{{name}}", "{{date}}"]]]⟩)
    ∧ "name".data.all goodB = true := by
  have h := scanner_output_spec ⟨["{{name}}"], [[["{{name}}", "{{date}}"]]]⟩
  have hmem : "name" ∈ extract_placeholders_b
      ⟨["{{name}}"], [[["{{name}}", "{{date}}"]]]⟩ :=
    (h.1.2 "name").mpr ⟨"{{name}}", by decide, by decide⟩
  exact ⟨hmem, h.2.1 "name" hmem⟩

/-! ## Template deletion and listings
(src/app.py lines 441-451: the delete handler runs
`UPDATE templates SET is_active = 0 WHERE id = ?`;
src/app_b.py lines 269-272: its delete handler runs
`DELETE FROM templates WHERE id = ?`;
src/db.py `list_templates`:
`SELECT * FROM templates WHERE is_active = 1 ORDER BY created_at DESC`.) -/

end LexPrep
